import Mathlib

set_option maxHeartbeats 1600000

/-!
Shallow embedding of the `datastore` repository: the `Collection` operations
(SetType, Upsert, DeleteKey, Delete, List), the ordered-index list algorithms
(binarySearchList, deleteKeyFromList), and the `Datastore` persistence
protocol (New, Create, Flush, Open, Signature).  Go `uint64` values are
modelled as `Nat` with explicit reduction modulo `2 ^ 64` where the source
can overflow; Go maps are modelled as association lists with map semantics;
in-place mutation of caller documents is modelled by returning the updated
document; file-system effects are modelled by an abstract I/O outcome.
-/

/-- Size of the Go uint64 value space. -/
def u64 : Nat := 2 ^ 64

/-- Document models the Go `Document` interface: a record that carries its
uint64 identity (`ID`/`SetID`), its reflected type name (what `CName`
returns), and opaque payload data distinguishing distinct documents. -/
structure Document where
  id : Nat
  kind : String
  payload : Nat
deriving DecidableEq

/-- Error values of the package (`ErrInvalidType`, `ErrInvalidSignature`)
together with the error classes surfaced from the OS / gzip / gob
collaborators during `Open`. -/
inductive DSError where
  | invalidType
  | invalidSignature
  | notFound
  | gzipError
  | decodeError
deriving DecidableEq

/-- Go map assignment `m[k] = v`: replace the entry if the key is present,
otherwise add it. -/
def mapInsert : List (Nat × Document) → Nat → Document → List (Nat × Document)
  | [], k, v => [(k, v)]
  | (k', v') :: rest, k, v =>
      if k' = k then (k, v) :: rest else (k', v') :: mapInsert rest k v

/-- Go map deletion `delete(m, k)`: remove the entry if present, no-op
otherwise. -/
def mapErase : List (Nat × Document) → Nat → List (Nat × Document)
  | [], _ => []
  | (k', v') :: rest, k =>
      if k' = k then mapErase rest k else (k', v') :: mapErase rest k

/-- Go map lookup `m[k]`. -/
def mapLookup : List (Nat × Document) → Nat → Option Document
  | [], _ => none
  | (k', v') :: rest, k => if k' = k then some v' else mapLookup rest k

/-- Loop body of `binarySearchList` (lists.go): binary search over the
index window `[low, high]`, returning the position of `key` or `-1`. -/
def binarySearchAux (l : List Nat) (key : Nat) (low high : Int) : Int :=
  if low ≤ high then
    let mid : Int := low + (high - low) / 2
    let v : Nat := l.getD mid.toNat 0
    if key < v then
      binarySearchAux l key low (mid - 1)
    else if v < key then
      binarySearchAux l key (mid + 1) high
    else
      mid
  else
    -1
termination_by (high + 1 - low).toNat
decreasing_by
  all_goals
    have h0 : (0 : Int) ≤ high - low := by omega
    have h1 : (high - low) / 2 ≤ high - low := Int.ediv_le_self _ h0
    have h2 : (0 : Int) ≤ (high - low) / 2 := Int.ediv_nonneg h0 (by norm_num)
    omega

/-- The `binarySearchList` function of lists.go: `low, mid, high :=
0, 0, len(*list)-1` and loop while `low <= high`. -/
def binarySearchList (l : List Nat) (key : Nat) : Int :=
  binarySearchAux l key 0 ((l.length : Int) - 1)

/-- The `deleteKeyFromList` function of lists.go: locate `key` by binary
search; exit if absent; otherwise remove the element at the found index
(first item: reslice from 1; last item: truncate; middle: copy down and
shrink by one). -/
def deleteKeyFromList (l : List Nat) (key : Nat) : List Nat :=
  let idx := binarySearchList l key
  if idx < 0 then l
  else if idx = 0 then l.drop 1
  else if idx = (l.length : Int) - 1 then l.take idx.toNat
  else l.take idx.toNat ++ l.drop (idx.toNat + 1)

/-- Collection (collection.go): type tag (`Type` in the source, renamed
because `Type` is a Lean keyword), item map, autoincrement counter
`CurrentIndex`, and the private ordered key list `list`. -/
structure Collection where
  typeTag : String
  Items : List (Nat × Document)
  CurrentIndex : Nat
  list : List Nat
deriving DecidableEq

/-- A collection as initialized by `Datastore.In`: empty items, no type. -/
def emptyCollection : Collection :=
  { typeTag := "", Items := [], CurrentIndex := 0, list := [] }

/-- `Collection.SetType` (collection.go): bind the type tag if unset, no-op
if already bound to the same tag, `ErrInvalidType` otherwise.  The possibly
updated collection models the in-place mutation of `c.Type`. -/
def Collection.SetType (c : Collection) (d : Document) : Collection × Option DSError :=
  if c.typeTag = "" then ({ c with typeTag := d.kind }, none)
  else if c.typeTag = d.kind then (c, none)
  else (c, some DSError.invalidType)

/-- `Collection.Upsert` (collection.go): check the type via `SetType`; when
the document identity is 0, increment `CurrentIndex` (uint64), assign it to
the document and append it to the key list; store the document under its
identity.  Returns the updated collection, the (possibly mutated) caller
document, and the error result. -/
def Collection.Upsert (c : Collection) (d : Document) : Collection × Document × Option DSError :=
  match c.SetType d with
  | (c1, some e) => (c1, d, some e)
  | (c1, none) =>
      if d.id = 0 then
        let newId := (c1.CurrentIndex + 1) % u64
        let d1 := { d with id := newId }
        ({ c1 with CurrentIndex := newId,
                   Items := mapInsert c1.Items newId d1,
                   list := c1.list ++ [newId] }, d1, none)
      else
        ({ c1 with Items := mapInsert c1.Items d.id d }, d, none)

/-- `Collection.DeleteKey` (collection.go): remove the key from the item
map and from the ordered key list. -/
def Collection.DeleteKey (c : Collection) (k : Nat) : Collection :=
  { c with Items := mapErase c.Items k, list := deleteKeyFromList c.list k }

/-- `Collection.Delete` (collection.go): no-op when the identity is 0;
otherwise delegate to `DeleteKey` and then set the caller document's
identity to zero (`document.SetID(0)`). -/
def Collection.Delete (c : Collection) (d : Document) : Collection × Document :=
  if d.id = 0 then (c, d)
  else (c.DeleteKey d.id, { d with id := 0 })

/-- `Collection.List` (collection.go): return the maintained key list. -/
def Collection.List (c : Collection) : List Nat :=
  c.list

/-- One caller-visible mutating call on a collection. -/
inductive Op where
  | upsert : Document → Op
  | deleteKey : Nat → Op
  | delete : Document → Op
deriving DecidableEq

/-- Run a sequence of mutating calls against a collection, as a caller
would issue them (collection.go version). -/
def runOps (c : Collection) : List Op → Collection
  | [] => c
  | Op.upsert d :: rest => runOps (c.Upsert d).1 rest
  | Op.deleteKey k :: rest => runOps (c.DeleteKey k) rest
  | Op.delete d :: rest => runOps (c.Delete d).1 rest

/-- Run a sequence of `Upsert` calls, also counting the upserts that
assigned a new key (those that received identity 0 and returned no
error). -/
def runUpserts (c : Collection) : List Document → Collection × Nat
  | [] => (c, 0)
  | d :: rest =>
      let r := c.Upsert d
      let assigned := if r.2.2 = none ∧ d.id = 0 then 1 else 0
      let next := runUpserts r.1 rest
      (next.1, assigned + next.2)

/-- `Collection.Upsert` of part_000: first sets the owning datastore's
dirty flag to true (modelled by the returned Bool), then rejects a
document whose kind differs from the collection type; on identity 0,
assigns the incremented `CurrentIndex`; stores the document and appends
its key to the list unconditionally. -/
def Part0.Upsert (dirty : Bool) (c : Collection) (d : Document) :
    Bool × Collection × Document × Option DSError :=
  let dirty1 := true
  if c.typeTag ≠ d.kind then (dirty1, c, d, some DSError.invalidType)
  else if d.id = 0 then
    let newId := (c.CurrentIndex + 1) % u64
    let d1 := { d with id := newId }
    (dirty1, { c with CurrentIndex := newId,
                      Items := mapInsert c.Items newId d1,
                      list := c.list ++ [newId] }, d1, none)
  else
    (dirty1, { c with Items := mapInsert c.Items d.id d,
                      list := c.list ++ [d.id] }, d, none)

/-- `Collection.DeleteKey` of part_000: sets the owning datastore's dirty
flag to true, removes the key from the item map and from the list. -/
def Part0.DeleteKey (dirty : Bool) (c : Collection) (k : Nat) : Bool × Collection :=
  let dirty1 := true
  (dirty1, { c with Items := mapErase c.Items k, list := deleteKeyFromList c.list k })

/-- Datastore (part_002 / datastore.go): backing path, decorated
signature, dirty flag, and the collection map. -/
structure Datastore where
  path : String
  signature : String
  dirty : Bool
  Collections : List (String × Collection)
deriving DecidableEq

/-- The `New` constructor (part_002): an in-memory datastore with no
backing path, empty signature, clean, no collections. -/
def New : Datastore :=
  { path := "", signature := "", dirty := false, Collections := [] }

/-- Outcome of one `Flush` call: `noop` models the early `return nil` when
the store is not dirty (no file operation at all); `flushed` models the
remove/create/encode/close/rename sequence completing and `return nil`;
`failed` models one of those file operations returning an error. -/
inductive FlushResult where
  | noop
  | flushed
  | failed
deriving DecidableEq

/-- `Datastore.Flush` (part_002): returns nil immediately when not dirty;
otherwise performs the file I/O sequence, whose success is abstracted by
`ioOk`.  The source returns nil after the rename without ever assigning
`d.dirty = false`, so the datastore state is returned unchanged in every
branch. -/
def Datastore.Flush (d : Datastore) (ioOk : Bool) : Datastore × FlushResult :=
  if d.dirty = false then (d, FlushResult.noop)
  else if ioOk then (d, FlushResult.flushed)
  else (d, FlushResult.failed)

/-- The package-level `Signature` function (part_002): prepends
"datastore:" to the caller-supplied value. -/
def Signature (signature : String) : String :=
  "datastore:" ++ signature

/-- The `Datastore.Signature` accessor (part_002). -/
def Datastore.Signature (d : Datastore) : String :=
  d.signature

/-- `Create` (part_002): builds a fresh store bound to `path` with the
decorated signature and immediately calls `Flush`, returning nil on a
flush error. -/
def Create (path signature : String) (ioOk : Bool) : Option Datastore :=
  let ds : Datastore := { New with path := path, signature := Signature signature }
  let r := ds.Flush ioOk
  if r.2 = FlushResult.failed then none else some r.1

/-- Insert a value into an ascending list, keeping it ascending; used to
model `sort.Sort(UIntSlice(...))` in `generateList`. -/
def insertSorted (x : Nat) : List Nat → List Nat
  | [] => [x]
  | y :: ys => if x ≤ y then x :: y :: ys else y :: insertSorted x ys

/-- Ascending sort of a key list (insertion sort), modelling
`sort.Sort(UIntSlice(list))`. -/
def sortKeys : List Nat → List Nat
  | [] => []
  | x :: xs => insertSorted x (sortKeys xs)

/-- `Collection.generateList` (collection.go): rebuild the key list from
the item map after restoring from disk, then sort it ascending. -/
def Collection.generateList (c : Collection) : Collection :=
  { c with list := sortKeys (c.Items.map (fun p => p.2.id)) }

/-- Abstract view of the file that `Open` reads: whether the path exists,
whether it is a valid gzip stream, the gzip header comment, and the gob
body (`none` when the body cannot be decoded). -/
structure DiskFile where
  present : Bool
  gzipOk : Bool
  Comment : String
  body : Option (List (String × Collection))
deriving DecidableEq

/-- `Open` (part_002): fails with `NotFound` when the path does not exist;
fails when the gzip header cannot be read; compares the header comment
with the expected decorated signature before decoding and returns
`(nil, ErrInvalidSignature)` on mismatch — the explicit nil overwrites the
named return, so no datastore value accompanies the error; otherwise
decodes the body (or fails with a decode error) and rebuilds each
collection's key list via `generateList`. -/
def Open (f : DiskFile) (path signature : String) : Except DSError Datastore :=
  if f.present = false then Except.error DSError.notFound
  else if f.gzipOk = false then Except.error DSError.gzipError
  else if f.Comment ≠ Signature signature then Except.error DSError.invalidSignature
  else
    match f.body with
    | none => Except.error DSError.decodeError
    | some cols =>
        Except.ok { path := path, signature := f.Comment, dirty := false,
                    Collections := cols.map (fun nc => (nc.1, nc.2.generateList)) }

/-! Auxiliary lemmas about the Go-map model. -/

theorem mapLookup_mapErase_self (m : List (Nat × Document)) (k : Nat) :
    mapLookup (mapErase m k) k = none := by
  induction m with
  | nil => rfl
  | cons p rest ih =>
      obtain ⟨k1, v1⟩ := p
      by_cases h : k1 = k
      · simpa [mapErase, h] using ih
      · simpa [mapErase, mapLookup, h] using ih

theorem mapInsert_keys (m : List (Nat × Document)) (k : Nat) (v : Document) :
    (mapInsert m k v).map Prod.fst =
      if k ∈ m.map Prod.fst then m.map Prod.fst else m.map Prod.fst ++ [k] := by
  induction m with
  | nil => simp [mapInsert]
  | cons p rest ih =>
      obtain ⟨k1, v1⟩ := p
      by_cases h : k1 = k
      · subst h; simp [mapInsert]
      · by_cases h2 : k ∈ rest.map Prod.fst
        · simp [mapInsert, h, ih, h2, Ne.symm h]
        · simp [mapInsert, h, ih, h2, Ne.symm h]

theorem mapInsert_keys_nodup (m : List (Nat × Document)) (k : Nat) (v : Document)
    (h : (m.map Prod.fst).Nodup) : ((mapInsert m k v).map Prod.fst).Nodup := by
  rw [mapInsert_keys]
  by_cases hk : k ∈ m.map Prod.fst
  · simpa [hk]
  · simp [hk, List.nodup_append, h]

theorem mapInsert_prop {P : Nat × Document → Prop} (m : List (Nat × Document))
    (k : Nat) (v : Document) (hm : ∀ p ∈ m, P p) (hkv : P (k, v)) :
    ∀ p ∈ mapInsert m k v, P p := by
  induction m with
  | nil => intro p hp; simp [mapInsert] at hp; subst hp; exact hkv
  | cons q rest ih =>
      obtain ⟨k1, v1⟩ := q
      intro p hp
      by_cases h : k1 = k
      · simp [mapInsert, h] at hp
        rcases hp with hp | hp
        · subst hp; exact hkv
        · exact hm p (by simp [hp])
      · simp [mapInsert, h] at hp
        rcases hp with hp | hp
        · exact hm p (by simp [hp])
        · exact ih (fun q hq => hm q (by simp [hq])) p hp

/-! Unfolding and branch lemmas for the binary search loop. -/

theorem binarySearchAux_eq (l : List Nat) (key : Nat) (low high : Int) :
    binarySearchAux l key low high =
      if low ≤ high then
        let mid : Int := low + (high - low) / 2
        let v : Nat := l.getD mid.toNat 0
        if key < v then binarySearchAux l key low (mid - 1)
        else if v < key then binarySearchAux l key (mid + 1) high
        else mid
      else -1 := by
  rw [binarySearchAux]

theorem binarySearchAux_stop (l : List Nat) (key : Nat) (low high : Int)
    (h : ¬ low ≤ high) : binarySearchAux l key low high = -1 := by
  rw [binarySearchAux_eq]; simp [h]

theorem binarySearchAux_lt (l : List Nat) (key : Nat) (low high : Int)
    (h : low ≤ high) (hk : key < l.getD (low + (high - low) / 2).toNat 0) :
    binarySearchAux l key low high
      = binarySearchAux l key low (low + (high - low) / 2 - 1) := by
  have hk1 : key < (l[(low + (high - low) / 2).toNat]?).getD 0 := by simpa using hk
  rw [binarySearchAux_eq]; simp [h, hk1]

theorem binarySearchAux_gt (l : List Nat) (key : Nat) (low high : Int)
    (h : low ≤ high) (hk : l.getD (low + (high - low) / 2).toNat 0 < key) :
    binarySearchAux l key low high
      = binarySearchAux l key (low + (high - low) / 2 + 1) high := by
  have hk1 : (l[(low + (high - low) / 2).toNat]?).getD 0 < key := by simpa using hk
  rw [binarySearchAux_eq]; simp [h, hk1, Nat.lt_asymm hk1]

theorem binarySearchAux_found (l : List Nat) (key : Nat) (low high : Int)
    (h : low ≤ high) (hk : l.getD (low + (high - low) / 2).toNat 0 = key) :
    binarySearchAux l key low high = low + (high - low) / 2 := by
  have hk1 : (l[(low + (high - low) / 2).toNat]?).getD 0 = key := by simpa using hk
  rw [binarySearchAux_eq]; simp [h, hk1]

theorem binarySearchAux_spec (l : List Nat) (key : Nat)
    (hs : List.Pairwise (· < ·) l) :
    ∀ (n : Nat) (low high : Int), (high + 1 - low).toNat = n →
      0 ≤ low → high < (l.length : Int) →
      (∀ j : Nat, j < l.length → l.getD j 0 = key → low ≤ (j : Int) ∧ (j : Int) ≤ high) →
      ((key ∉ l → binarySearchAux l key low high = -1)
       ∧ (∀ j : Nat, j < l.length → l.getD j 0 = key →
            binarySearchAux l key low high = (j : Int))) := by
  have hlt : ∀ (i j : Nat) (hi : i < l.length) (hj : j < l.length), i < j → l[i] < l[j] :=
    fun i j hi hj hij => List.pairwise_iff_getElem.mp hs i j hi hj hij
  intro n
  induction n using Nat.strong_induction_on with
  | _ n ih =>
      intro low high hn hlow hhigh hwin
      by_cases hlh : low ≤ high
      · have h0 : (0 : Int) ≤ high - low := by omega
        have hd1 : (high - low) / 2 ≤ high - low := Int.ediv_le_self _ h0
        have hd2 : (0 : Int) ≤ (high - low) / 2 := Int.ediv_nonneg h0 (by norm_num)
        have hm1 : low ≤ low + (high - low) / 2 := by omega
        have hm2 : low + (high - low) / 2 ≤ high := by omega
        have hmn : (((low + (high - low) / 2).toNat : Nat) : Int) = low + (high - low) / 2 :=
          Int.toNat_of_nonneg (by omega)
        have hmlen : (low + (high - low) / 2).toNat < l.length := by omega
        have hv : l.getD (low + (high - low) / 2).toNat 0 = l[(low + (high - low) / 2).toNat] :=
          List.getD_eq_getElem l 0 hmlen
        rcases Nat.lt_trichotomy key (l[(low + (high - low) / 2).toNat]) with hc | hc | hc
        · -- key is left of mid: recurse on [low, mid-1]
          have hstep := binarySearchAux_lt l key low high hlh (by rw [hv]; exact hc)
          have hwin' : ∀ j : Nat, j < l.length → l.getD j 0 = key →
              low ≤ (j : Int) ∧ (j : Int) ≤ low + (high - low) / 2 - 1 := by
            intro j hj hkey
            have hw := hwin j hj hkey
            have hjm : j < (low + (high - low) / 2).toNat := by
              by_contra hge
              push_neg at hge
              rcases Nat.lt_or_ge (low + (high - low) / 2).toNat j with hlt2 | hge2
              · have := hlt _ _ hmlen hj hlt2
                rw [List.getD_eq_getElem l 0 hj] at hkey
                omega
              · have hjeq : j = (low + (high - low) / 2).toNat := by omega
                rw [List.getD_eq_getElem l 0 hj] at hkey
                subst hjeq
                omega
            omega
          have hrec := ih ((low + (high - low) / 2 - 1) + 1 - low).toNat (by omega)
            low (low + (high - low) / 2 - 1) rfl hlow (by omega) hwin'
          rw [hstep]
          exact hrec
        · -- key found at mid
          have hstep := binarySearchAux_found l key low high hlh (by rw [hv]; exact hc.symm)
          constructor
          · intro habs
            exact absurd (hc ▸ List.getElem_mem hmlen) habs
          · intro j hj hkey
            rw [List.getD_eq_getElem l 0 hj] at hkey
            have hjeq : j = (low + (high - low) / 2).toNat := by
              rcases Nat.lt_trichotomy j (low + (high - low) / 2).toNat with h1 | h1 | h1
              · have := hlt _ _ hj hmlen h1
                omega
              · exact h1
              · have := hlt _ _ hmlen hj h1
                omega
            rw [hstep, hjeq, hmn]
        · -- key is right of mid: recurse on [mid+1, high]
          have hstep := binarySearchAux_gt l key low high hlh (by rw [hv]; exact hc)
          have hwin' : ∀ j : Nat, j < l.length → l.getD j 0 = key →
              low + (high - low) / 2 + 1 ≤ (j : Int) ∧ (j : Int) ≤ high := by
            intro j hj hkey
            have hw := hwin j hj hkey
            have hjm : (low + (high - low) / 2).toNat < j := by
              by_contra hge
              push_neg at hge
              rcases Nat.lt_or_ge j (low + (high - low) / 2).toNat with hlt2 | hge2
              · have := hlt _ _ hj hmlen hlt2
                rw [List.getD_eq_getElem l 0 hj] at hkey
                omega
              · have hjeq : j = (low + (high - low) / 2).toNat := by omega
                rw [List.getD_eq_getElem l 0 hj] at hkey
                subst hjeq
                omega
            omega
          have hrec := ih (high + 1 - (low + (high - low) / 2 + 1)).toNat (by omega)
            (low + (high - low) / 2 + 1) high rfl (by omega) hhigh hwin'
          rw [hstep]
          exact hrec
      · -- empty window
        have hstep := binarySearchAux_stop l key low high hlh
        constructor
        · intro _; exact hstep
        · intro j hj hkey
          have hw := hwin j hj hkey
          omega

theorem binarySearchList_spec (l : List Nat) (key : Nat)
    (hs : List.Pairwise (· < ·) l) :
    (key ∉ l → binarySearchList l key = -1)
    ∧ (∀ j : Nat, j < l.length → l.getD j 0 = key → binarySearchList l key = (j : Int)) := by
  have h := binarySearchAux_spec l key hs ((l.length : Int) - 1 + 1 - 0).toNat 0
    ((l.length : Int) - 1) rfl (by omega) (by omega)
    (fun j hj _ => by omega)
  exact h

theorem deleteKeyFromList_spec (l : List Nat) (key : Nat)
    (hs : List.Pairwise (· < ·) l) :
    (key ∉ l → binarySearchList l key = -1 ∧ deleteKeyFromList l key = l)
    ∧ (∀ j : Nat, j < l.length → l.getD j 0 = key →
        binarySearchList l key = (j : Int)
        ∧ deleteKeyFromList l key = l.take j ++ l.drop (j + 1)) := by
  obtain ⟨habs, hpres⟩ := binarySearchList_spec l key hs
  constructor
  · intro hmem
    have hb := habs hmem
    refine ⟨hb, ?_⟩
    unfold deleteKeyFromList
    rw [hb]
    norm_num
  · intro j hj hkey
    have hb := hpres j hj hkey
    refine ⟨hb, ?_⟩
    unfold deleteKeyFromList
    rw [hb]
    by_cases h0 : (j : Int) = 0
    · have hj0 : j = 0 := by omega
      subst hj0
      simp
    · by_cases hlast : (j : Int) = (l.length : Int) - 1
      · have hne : ¬ ((j : Int) < 0) := by omega
        rw [if_neg hne, if_neg h0, if_pos hlast]
        have htn : (j : Int).toNat = j := by omega
        rw [htn]
        have hdrop : l.drop (j + 1) = [] := by
          apply List.drop_eq_nil_of_le
          omega
        rw [hdrop, List.append_nil]
      · have hne : ¬ ((j : Int) < 0) := by omega
        rw [if_neg hne, if_neg h0, if_neg hlast]
        have htn : (j : Int).toNat = j := by omega
        rw [htn]

theorem not_mem_take_drop (l : List Nat) (key : Nat) (hs : List.Pairwise (· < ·) l)
    (j : Nat) (hj : j < l.length) (hkey : l.getD j 0 = key) :
    key ∉ l.take j ++ l.drop (j + 1) := by
  have hnodup : l.Nodup := hs.imp (fun h => Nat.ne_of_lt h)
  have hget : l[j] = key := by
    rw [List.getD_eq_getElem l 0 hj] at hkey; exact hkey
  intro hmem
  have hnodup1 : (l.take j ++ l[j] :: l.drop (j + 1)).Nodup := by
    rw [← List.drop_eq_getElem_cons hj, List.take_append_drop]
    exact hnodup
  rcases List.mem_append.mp hmem with hm | hm
  · have hdisj := (List.nodup_append.mp hnodup1).2.2
    exact hdisj hm (by rw [hget]; exact List.mem_cons_self _ _)
  · have hcons := (List.nodup_append.mp hnodup1).2.1
    have hni := (List.nodup_cons.mp hcons).1
    rw [hget] at hni
    exact hni hm

theorem deleteKeyFromList_sorted (l : List Nat) (key : Nat)
    (hs : List.Pairwise (· < ·) l) : key ∉ deleteKeyFromList l key := by
  by_cases hmem : key ∈ l
  · obtain ⟨j, hj, hget⟩ := List.getElem_of_mem hmem
    have hkey : l.getD j 0 = key := by rw [List.getD_eq_getElem l 0 hj]; exact hget
    rw [((deleteKeyFromList_spec l key hs).2 j hj hkey).2]
    exact not_mem_take_drop l key hs j hj hkey
  · rw [((deleteKeyFromList_spec l key hs).1 hmem).2]
    exact hmem

theorem deleteKeyFromList_one (k : Nat) : deleteKeyFromList [k] k = [] := by
  have hb : binarySearchList [k] k = 0 := by
    rw [binarySearchList]
    rw [binarySearchAux_eq]
    simp
  unfold deleteKeyFromList
  rw [hb]
  norm_num

/-! Helper characterizations of `SetType` and `Upsert`. -/

theorem setType_unset (c : Collection) (d : Document) (h : c.typeTag = "") :
    c.SetType d = ({ c with typeTag := d.kind }, none) := by
  unfold Collection.SetType
  rw [if_pos h]

theorem setType_same (c : Collection) (d : Document) (h : c.typeTag = d.kind) :
    c.SetType d = (c, none) := by
  unfold Collection.SetType
  by_cases h0 : c.typeTag = ""
  · rw [if_pos h0, ← h]
  · rw [if_neg h0, if_pos h]

theorem setType_diff (c : Collection) (d : Document) (h1 : c.typeTag ≠ "")
    (h2 : c.typeTag ≠ d.kind) : c.SetType d = (c, some DSError.invalidType) := by
  unfold Collection.SetType
  rw [if_neg h1, if_neg h2]

theorem upsert_type_mismatch (c : Collection) (d : Document) (h1 : c.typeTag ≠ "")
    (h2 : c.typeTag ≠ d.kind) : c.Upsert d = (c, d, some DSError.invalidType) := by
  unfold Collection.Upsert
  rw [setType_diff c d h1 h2]

theorem upsert_fresh (c1 : Collection) (c : Collection) (d : Document) (hid : d.id = 0)
    (hst : c.SetType d = (c1, none)) :
    c.Upsert d =
      ({ c1 with CurrentIndex := (c1.CurrentIndex + 1) % u64,
                 Items := mapInsert c1.Items ((c1.CurrentIndex + 1) % u64)
                   { d with id := (c1.CurrentIndex + 1) % u64 },
                 list := c1.list ++ [(c1.CurrentIndex + 1) % u64] },
       { d with id := (c1.CurrentIndex + 1) % u64 }, none) := by
  unfold Collection.Upsert
  rw [hst]
  dsimp only
  rw [if_pos hid]

theorem upsert_preset (c1 : Collection) (c : Collection) (d : Document) (hid : d.id ≠ 0)
    (hst : c.SetType d = (c1, none)) :
    c.Upsert d = ({ c1 with Items := mapInsert c1.Items d.id d }, d, none) := by
  unfold Collection.Upsert
  rw [hst]
  dsimp only
  rw [if_neg hid]

/-- C9: for every strictly ascending, duplicate-free list of keys,
`binarySearchList` returns the key's position on an exact match and the
negative sentinel -1 otherwise, and `deleteKeyFromList` is a no-op when
the key is absent and otherwise removes exactly the element at the key's
position, shifting subsequent elements left by one. -/
theorem c9_index_removal : ∀ (l : List Nat) (key : Nat), List.Pairwise (· < ·) l →
    ((key ∉ l → binarySearchList l key = -1 ∧ deleteKeyFromList l key = l)
     ∧ (∀ j : Nat, j < l.length → l.getD j 0 = key →
         binarySearchList l key = (j : Int)
         ∧ deleteKeyFromList l key = l.take j ++ l.drop (j + 1))) :=
  fun l key hs => deleteKeyFromList_spec l key hs

/-- Witness for C9 at concrete inputs: searching and removing the present
key 2 from [1, 2, 4], and the absent key 3. -/
theorem c9_witness :
    binarySearchList [1, 2, 4] 2 = 1 ∧ deleteKeyFromList [1, 2, 4] 2 = [1, 4]
    ∧ binarySearchList [1, 2, 4] 3 = -1 ∧ deleteKeyFromList [1, 2, 4] 3 = [1, 2, 4] := by
  have h := c9_index_removal [1, 2, 4] 2 (by decide)
  have h2 := h.2 1 (by decide) (by decide)
  have g := c9_index_removal [1, 2, 4] 3 (by decide)
  have g2 := g.1 (by decide)
  exact ⟨h2.1, by rw [h2.2]; decide, g2.1, g2.2⟩

/-- C6: a collection already bound to tag A rejects a document of a
different kind B with `ErrInvalidType` and is returned completely
unchanged (type tag, item map, counter, and key list all keep their
values); `SetType` binds the tag if unset, is a no-op on the same tag,
and fails with `ErrInvalidType` on a different tag. -/
theorem c6_type_guard :
    (∀ (c : Collection) (d : Document), c.typeTag ≠ "" → d.kind ≠ c.typeTag →
        c.Upsert d = (c, d, some DSError.invalidType))
    ∧ (∀ (c : Collection) (d : Document), c.typeTag = "" →
        c.SetType d = ({ c with typeTag := d.kind }, none))
    ∧ (∀ (c : Collection) (d : Document), c.typeTag = d.kind →
        c.SetType d = (c, none))
    ∧ (∀ (c : Collection) (d : Document), c.typeTag ≠ "" → c.typeTag ≠ d.kind →
        c.SetType d = (c, some DSError.invalidType)) := by
  refine ⟨?_, setType_unset, setType_same, setType_diff⟩
  intro c d h1 h2
  exact upsert_type_mismatch c d h1 (fun hh => h2 hh.symm)

/-- Witness for C6: a collection bound to "A" rejects a document of kind
"B" unchanged, and the three `SetType` cases at concrete tags. -/
theorem c6_type_guard_witness :
    ({ typeTag := "A", Items := [], CurrentIndex := 3, list := [] } : Collection).Upsert
        { id := 0, kind := "B", payload := 0 }
      = ({ typeTag := "A", Items := [], CurrentIndex := 3, list := [] },
         { id := 0, kind := "B", payload := 0 }, some DSError.invalidType)
    ∧ (emptyCollection.SetType { id := 0, kind := "B", payload := 0 }
        = ({ emptyCollection with typeTag := "B" }, none)) := by
  constructor
  · exact c6_type_guard.1 _ _ (by decide) (by decide)
  · exact c6_type_guard.2.1 emptyCollection _ (by decide)

/-- C4: in the dirty-flag versions of the collection (part_000 and the
embedded collection of datastore.go), both `Upsert` (whether it succeeds
or fails the type check) and `DeleteKey` set the owning datastore's dirty
flag to true as their first action. -/
theorem c4_marks_dirty :
    (∀ (dirty : Bool) (c : Collection) (d : Document), (Part0.Upsert dirty c d).1 = true)
    ∧ (∀ (dirty : Bool) (c : Collection) (k : Nat), (Part0.DeleteKey dirty c k).1 = true) := by
  constructor
  · intro dirty c d
    unfold Part0.Upsert
    dsimp only
    split
    · rfl
    · split <;> rfl
  · intro dirty c k
    rfl

/-- C3: the source `Flush` never assigns `dirty = false`, so after a
datastore is marked dirty by an upsert, a first successful `Flush`
performs the file I/O sequence and leaves the dirty flag set, and a
second `Flush` with no intervening mutation performs the full file I/O
again instead of being a no-op. -/
theorem c3_eval :
    (Part0.Upsert false emptyCollection { id := 0, kind := "t", payload := 0 }).1 = true
    ∧ (({ path := "db", signature := Signature "app",
          dirty := (Part0.Upsert false emptyCollection { id := 0, kind := "t", payload := 0 }).1,
          Collections := [] } : Datastore).Flush true).2 = FlushResult.flushed
    ∧ (({ path := "db", signature := Signature "app",
          dirty := (Part0.Upsert false emptyCollection { id := 0, kind := "t", payload := 0 }).1,
          Collections := [] } : Datastore).Flush true).1.dirty = true
    ∧ (((({ path := "db", signature := Signature "app",
            dirty := (Part0.Upsert false emptyCollection { id := 0, kind := "t", payload := 0 }).1,
            Collections := [] } : Datastore).Flush true).1.Flush true).2 = FlushResult.flushed) := by
  refine ⟨rfl, rfl, rfl, rfl⟩

/-- C8: `New` creates an in-memory datastore with an empty path and a
clean dirty flag, and `Flush` on it returns nil as a no-op regardless of
the file-system environment — it does not fail, and in particular never
produces a dedicated "not persistable" error. -/
theorem c8_eval :
    New.path = "" ∧ New.Flush true = (New, FlushResult.noop)
    ∧ New.Flush false = (New, FlushResult.noop) := by
  refine ⟨rfl, rfl, rfl⟩

/-- C5: `Open` with a mismatched expected signature fails with
`ErrInvalidSignature` before the body is decoded (an undecodable body
still yields `ErrInvalidSignature`, not a decode error), exposes no
decoded collection, and the result is identical for different on-disk
signatures — the explicit `return nil, ErrInvalidSignature` discards the
datastore value that was holding the on-disk signature, so the error
result does not carry it. -/
theorem c5_eval :
    Open { present := true, gzipOk := true, Comment := Signature "app.v1", body := none }
        "p" "app.v2" = Except.error DSError.invalidSignature
    ∧ Open { present := true, gzipOk := true, Comment := Signature "other",
             body := some [("x", emptyCollection)] } "p" "app.v2"
        = Except.error DSError.invalidSignature
    ∧ Open { present := true, gzipOk := true, Comment := Signature "app.v1", body := none }
          "p" "app.v2"
      = Open { present := true, gzipOk := true, Comment := Signature "other",
               body := some [("x", emptyCollection)] } "p" "app.v2" := by
  refine ⟨rfl, rfl, rfl⟩

/-- C10: the `Signature()` accessor of a datastore returned by `Create`
— and of one successfully returned by `Open` — yields the decorated
string "datastore:" followed by the caller-supplied signature, not the
caller-supplied string itself. -/
theorem c10_signature :
    (∀ (path s : String) (ioOk : Bool) (ds : Datastore),
        Create path s ioOk = some ds → ds.Signature = "datastore:" ++ s)
    ∧ (∀ (f : DiskFile) (path s : String) (ds : Datastore),
        Open f path s = Except.ok ds → ds.Signature = "datastore:" ++ s) := by
  constructor
  · intro path s ioOk ds h
    have hc : Create path s ioOk
        = some { path := path, signature := Signature s, dirty := false, Collections := [] } :=
      rfl
    rw [hc] at h
    injection h with h1
    rw [← h1]
    rfl
  · intro f path s ds h
    unfold Open at h
    by_cases h1 : f.present = false
    · rw [if_pos h1] at h; exact absurd h (by simp)
    · rw [if_neg h1] at h
      by_cases h2 : f.gzipOk = false
      · rw [if_pos h2] at h; exact absurd h (by simp)
      · rw [if_neg h2] at h
        by_cases h3 : f.Comment ≠ Signature s
        · rw [if_pos h3] at h; exact absurd h (by simp)
        · rw [if_neg h3] at h
          push_neg at h3
          cases hb : f.body with
          | none => rw [hb] at h; exact absurd h (by simp)
          | some cols =>
              rw [hb] at h
              injection h with h4
              rw [← h4]
              show f.Comment = "datastore:" ++ s
              rw [h3]
              rfl

/-- Witness for C10: a store created with signature "app" reports
"datastore:app". -/
theorem c10_witness :
    Datastore.Signature { path := "p", signature := Signature "app", dirty := false,
                          Collections := [] } = "datastore:" ++ "app" :=
  c10_signature.1 "p" "app" true _ rfl

/-- C2 counterexample: on collection.go, `Delete` resets the caller
document's identity to 0 (the claim says it does not), and re-upserting
the same document therefore assigns a fresh key 2 instead of reinserting
at the old key 1. -/
theorem c2_counterexample :
    (emptyCollection.Upsert { id := 0, kind := "t", payload := 3 }).2.1.id = 1
    ∧ ((emptyCollection.Upsert { id := 0, kind := "t", payload := 3 }).1.Delete
        { id := 1, kind := "t", payload := 3 }).2.id = 0
    ∧ (((emptyCollection.Upsert { id := 0, kind := "t", payload := 3 }).1.Delete
          { id := 1, kind := "t", payload := 3 }).1.Upsert
        { id := 0, kind := "t", payload := 3 }).2.1.id = 2 := by
  have h1 : emptyCollection.Upsert { id := 0, kind := "t", payload := 3 }
      = ({ typeTag := "t", Items := [(1, { id := 1, kind := "t", payload := 3 })],
           CurrentIndex := 1, list := [1] },
         { id := 1, kind := "t", payload := 3 }, none) := by decide
  have hdel : (({ typeTag := "t", Items := [(1, { id := 1, kind := "t", payload := 3 })],
                  CurrentIndex := 1, list := [1] } : Collection).Delete
        { id := 1, kind := "t", payload := 3 })
      = ({ typeTag := "t", Items := [], CurrentIndex := 1, list := [] },
         { id := 0, kind := "t", payload := 3 }) := by
    unfold Collection.Delete Collection.DeleteKey
    rw [if_neg (by decide : ¬ (({ id := 1, kind := "t", payload := 3 } : Document).id = 0))]
    rw [show deleteKeyFromList [1] 1 = [] from deleteKeyFromList_one 1]
    decide
  refine ⟨by rw [h1], ?_, ?_⟩
  · rw [h1]
    dsimp only
    rw [hdel]
  · rw [h1]
    dsimp only
    rw [hdel]
    decide

/-- C2 (amended): for a document with nonzero identity, `Delete` removes
the entry under that key from the item map and from the ordered key list
(delegating to `DeleteKey`) and resets the caller document's identity to
0, so a later re-upsert of that document assigns a fresh key rather than
reinserting at the old one; for identity 0 it is a no-op. -/
theorem c2_amended_delete :
    ∀ (c : Collection) (d : Document),
      (d.id = 0 → c.Delete d = (c, d))
      ∧ (d.id ≠ 0 →
          (c.Delete d).1 = c.DeleteKey d.id
          ∧ (c.Delete d).2 = { d with id := 0 }
          ∧ mapLookup (c.Delete d).1.Items d.id = none
          ∧ (List.Pairwise (· < ·) c.list → d.id ∉ (c.Delete d).1.list)) := by
  intro c d
  constructor
  · intro h
    unfold Collection.Delete
    rw [if_pos h]
  · intro h
    unfold Collection.Delete
    rw [if_neg h]
    refine ⟨rfl, rfl, ?_, ?_⟩
    · exact mapLookup_mapErase_self c.Items d.id
    · intro hsorted
      exact deleteKeyFromList_sorted c.list d.id hsorted

/-- Witness for C2 (amended) at a concrete one-element collection. -/
theorem c2_amended_witness :
    (({ typeTag := "t", Items := [(1, { id := 1, kind := "t", payload := 3 })],
        CurrentIndex := 1, list := [1] } : Collection).Delete
        { id := 1, kind := "t", payload := 3 }).2
      = { id := 0, kind := "t", payload := 3 }
    ∧ (1 : Nat) ∉
      (({ typeTag := "t", Items := [(1, { id := 1, kind := "t", payload := 3 })],
          CurrentIndex := 1, list := [1] } : Collection).Delete
          { id := 1, kind := "t", payload := 3 }).1.list := by
  have h := c2_amended_delete
    { typeTag := "t", Items := [(1, { id := 1, kind := "t", payload := 3 })],
      CurrentIndex := 1, list := [1] }
    { id := 1, kind := "t", payload := 3 }
  have h2 := h.2 (by decide)
  exact ⟨h2.2.1, h2.2.2.2 (by decide)⟩

/-- C1: on collection.go the index invariant breaks: upserting a fresh
document (it receives key 1), deleting key 1 via `DeleteKey`, and then
re-upserting the same caller document (which still carries identity 1)
leaves the item map holding key 1 while `List()` returns the empty list
— `List()` no longer equals the sorted key set of the item map. -/
theorem c1_eval :
    (runOps emptyCollection
        [Op.upsert { id := 0, kind := "t", payload := 7 },
         Op.deleteKey 1,
         Op.upsert { id := 1, kind := "t", payload := 7 }]).Items.map Prod.fst = [1]
    ∧ (runOps emptyCollection
        [Op.upsert { id := 0, kind := "t", payload := 7 },
         Op.deleteKey 1,
         Op.upsert { id := 1, kind := "t", payload := 7 }]).List = [] := by
  have h1 : emptyCollection.Upsert { id := 0, kind := "t", payload := 7 }
      = ({ typeTag := "t", Items := [(1, { id := 1, kind := "t", payload := 7 })],
           CurrentIndex := 1, list := [1] },
         { id := 1, kind := "t", payload := 7 }, none) := by decide
  have h2 : ({ typeTag := "t", Items := [(1, { id := 1, kind := "t", payload := 7 })],
               CurrentIndex := 1, list := [1] } : Collection).DeleteKey 1
      = { typeTag := "t", Items := [], CurrentIndex := 1, list := [] } := by
    unfold Collection.DeleteKey
    rw [show deleteKeyFromList [1] 1 = [] from deleteKeyFromList_one 1]
    decide
  have hrun : runOps emptyCollection
      [Op.upsert { id := 0, kind := "t", payload := 7 },
       Op.deleteKey 1,
       Op.upsert { id := 1, kind := "t", payload := 7 }]
      = { typeTag := "t", Items := [(1, { id := 1, kind := "t", payload := 7 })],
          CurrentIndex := 1, list := [] } := by
    show runOps (((emptyCollection.Upsert { id := 0, kind := "t", payload := 7 }).1.DeleteKey
        1).Upsert { id := 1, kind := "t", payload := 7 }).1 [] = _
    rw [h1]
    dsimp only
    rw [h2]
    decide
  rw [hrun]
  decide

theorem setType_ok_fields (c : Collection) (d : Document)
    (h : c.typeTag = "" ∨ c.typeTag = d.kind) :
    ∃ c1 : Collection, c.SetType d = (c1, none)
      ∧ c1.Items = c.Items ∧ c1.CurrentIndex = c.CurrentIndex ∧ c1.list = c.list := by
  rcases h with h | h
  · exact ⟨_, setType_unset c d h, rfl, rfl, rfl⟩
  · exact ⟨_, setType_same c d h, rfl, rfl, rfl⟩

theorem runUpserts_cons (c : Collection) (d : Document) (rest : List Document) :
    runUpserts c (d :: rest)
      = ((runUpserts (c.Upsert d).1 rest).1,
         (if (c.Upsert d).2.2 = none ∧ d.id = 0 then 1 else 0)
           + (runUpserts (c.Upsert d).1 rest).2) := rfl

theorem runUpserts_invariant (ds : List Document) :
    ∀ c : Collection,
      c.CurrentIndex + (runUpserts c ds).2 < u64 →
      (∀ x ∈ c.list, x ≤ c.CurrentIndex) →
      List.Pairwise (· < ·) c.list →
      (c.Items.map Prod.fst).Nodup →
      (∀ p ∈ c.Items, p.2.id = p.1) →
      ((runUpserts c ds).1.CurrentIndex = c.CurrentIndex + (runUpserts c ds).2
       ∧ (∀ x ∈ (runUpserts c ds).1.list, x ≤ (runUpserts c ds).1.CurrentIndex)
       ∧ List.Pairwise (· < ·) (runUpserts c ds).1.list
       ∧ ((runUpserts c ds).1.Items.map Prod.fst).Nodup
       ∧ (∀ p ∈ (runUpserts c ds).1.Items, p.2.id = p.1)) := by
  induction ds with
  | nil =>
      intro c hb h1 h2 h3 h4
      exact ⟨by simp [runUpserts], h1, h2, h3, h4⟩
  | cons d rest ih =>
      intro c hb h1 h2 h3 h4
      rw [runUpserts_cons] at hb ⊢
      dsimp only at hb ⊢
      by_cases ht : c.typeTag = "" ∨ c.typeTag = d.kind
      · obtain ⟨c1, hst, hI, hCI, hL⟩ := setType_ok_fields c d ht
        by_cases hid : d.id = 0
        · have hup := upsert_fresh c1 c d hid hst
          have herr : (c.Upsert d).2.2 = none := by rw [hup]
          have hassigned : (if (c.Upsert d).2.2 = none ∧ d.id = 0 then 1 else 0) = 1 :=
            if_pos ⟨herr, hid⟩
          rw [hassigned] at hb ⊢
          have hlt : c.CurrentIndex + 1 < u64 := by omega
          have hmod : (c1.CurrentIndex + 1) % u64 = c.CurrentIndex + 1 := by
            rw [hCI]; exact Nat.mod_eq_of_lt hlt
          set c2 := (c.Upsert d).1 with hc2
          have hc2CI : c2.CurrentIndex = c.CurrentIndex + 1 := by
            rw [hc2, hup]; exact hmod
          have hc2list : c2.list = c.list ++ [c.CurrentIndex + 1] := by
            rw [hc2, hup]; dsimp only; rw [hmod, hL]
          have hc2I : c2.Items
              = mapInsert c.Items (c.CurrentIndex + 1)
                  { d with id := c.CurrentIndex + 1 } := by
            rw [hc2, hup]; dsimp only; rw [hmod, hI]
          have hbound2 : ∀ x ∈ c2.list, x ≤ c2.CurrentIndex := by
            rw [hc2list, hc2CI]
            intro x hx
            rcases List.mem_append.mp hx with hx | hx
            · exact Nat.le_succ_of_le (h1 x hx)
            · simp at hx; omega
          have hsorted2 : List.Pairwise (· < ·) c2.list := by
            rw [hc2list, List.pairwise_append]
            refine ⟨h2, List.pairwise_singleton _ _, ?_⟩
            intro a ha b hbmem
            simp at hbmem
            have := h1 a ha
            omega
          have hnodup2 : (c2.Items.map Prod.fst).Nodup := by
            rw [hc2I]; exact mapInsert_keys_nodup _ _ _ h3
          have hprop2 : ∀ p ∈ c2.Items, p.2.id = p.1 := by
            rw [hc2I]; exact mapInsert_prop _ _ _ h4 rfl
          have hrec := ih c2 (by rw [hc2CI]; omega) hbound2 hsorted2 hnodup2 hprop2
          refine ⟨?_, hrec.2.1, hrec.2.2.1, hrec.2.2.2.1, hrec.2.2.2.2⟩
          rw [hrec.1, hc2CI]
          omega
        · have hup := upsert_preset c1 c d hid hst
          have hassigned : (if (c.Upsert d).2.2 = none ∧ d.id = 0 then 1 else 0) = 0 :=
            if_neg (fun hcon => hid hcon.2)
          rw [hassigned] at hb ⊢
          set c2 := (c.Upsert d).1 with hc2
          have hc2CI : c2.CurrentIndex = c.CurrentIndex := by rw [hc2, hup]; exact hCI
          have hc2list : c2.list = c.list := by rw [hc2, hup]; exact hL
          have hc2I : c2.Items = mapInsert c.Items d.id d := by
            rw [hc2, hup]; dsimp only; rw [hI]
          have hrec := ih c2 (by rw [hc2CI]; omega)
            (by rw [hc2list, hc2CI]; exact h1)
            (by rw [hc2list]; exact h2)
            (by rw [hc2I]; exact mapInsert_keys_nodup _ _ _ h3)
            (by rw [hc2I]; exact mapInsert_prop _ _ _ h4 rfl)
          refine ⟨?_, hrec.2.1, hrec.2.2.1, hrec.2.2.2.1, hrec.2.2.2.2⟩
          rw [hrec.1, hc2CI]
          omega
      · push_neg at ht
        have hup := upsert_type_mismatch c d ht.1 ht.2
        have hassigned : (if (c.Upsert d).2.2 = none ∧ d.id = 0 then 1 else 0) = 0 := by
          rw [hup]; simp
        rw [hassigned] at hb ⊢
        have hcup : (c.Upsert d).1 = c := by rw [hup]
        rw [hcup] at hb ⊢
        have hrec := ih c (by omega) h1 h2 h3 h4
        refine ⟨?_, hrec.2.1, hrec.2.2.1, hrec.2.2.2.1, hrec.2.2.2.2⟩
        rw [hrec.1]
        omega

/-- C7: an `Upsert` that receives a document with identity 0 (and passes
the type check) assigns `CurrentIndex + 1`, stores that value in
`CurrentIndex`, mutates the caller document's identity to it, and appends
the new key to the ordered index; consequently, after any sequence of
upserts on a fresh collection whose assigning-upsert count stays within
uint64 range, `CurrentIndex` equals the count of upserts that assigned a
new key, the key list is strictly ascending, and no two stored documents
share an identity (item-map keys are duplicate-free and each stored
document's identity equals its key). -/
theorem c7_key_assignment :
    (∀ (c : Collection) (d : Document), d.id = 0 →
       c.typeTag = "" ∨ c.typeTag = d.kind →
       ((c.Upsert d).2.2 = none
        ∧ (c.Upsert d).2.1.id = (c.CurrentIndex + 1) % u64
        ∧ (c.Upsert d).1.CurrentIndex = (c.CurrentIndex + 1) % u64
        ∧ (c.Upsert d).1.list = c.list ++ [(c.CurrentIndex + 1) % u64]))
    ∧ (∀ ds : List Document, (runUpserts emptyCollection ds).2 < u64 →
        (runUpserts emptyCollection ds).1.CurrentIndex = (runUpserts emptyCollection ds).2
        ∧ List.Pairwise (· < ·) (runUpserts emptyCollection ds).1.list
        ∧ ((runUpserts emptyCollection ds).1.Items.map Prod.fst).Nodup
        ∧ (∀ p ∈ (runUpserts emptyCollection ds).1.Items, p.2.id = p.1)) := by
  constructor
  · intro c d hid ht
    obtain ⟨c1, hst, hI, hCI, hL⟩ := setType_ok_fields c d ht
    rw [upsert_fresh c1 c d hid hst]
    refine ⟨rfl, ?_, ?_, ?_⟩
    · dsimp only; rw [hCI]
    · dsimp only; rw [hCI]
    · dsimp only; rw [hCI, hL]
  · intro ds hb
    have h := runUpserts_invariant ds emptyCollection
      (by simpa [emptyCollection] using hb)
      (by simp [emptyCollection])
      (by simp [emptyCollection])
      (by simp [emptyCollection])
      (by simp [emptyCollection])
    refine ⟨?_, h.2.2.1, h.2.2.2.1, h.2.2.2.2⟩
    have h1 := h.1
    simpa [emptyCollection] using h1

/-- Witness for C7: two fresh upserts on a fresh collection receive keys
1 and 2, and `CurrentIndex` ends at the assigning-upsert count 2. -/
theorem c7_witness :
    (emptyCollection.Upsert { id := 0, kind := "t", payload := 0 }).2.1.id = (0 + 1) % u64
    ∧ (runUpserts emptyCollection
        [{ id := 0, kind := "t", payload := 1 }, { id := 0, kind := "t", payload := 2 }]).1.CurrentIndex
      = (runUpserts emptyCollection
          [{ id := 0, kind := "t", payload := 1 }, { id := 0, kind := "t", payload := 2 }]).2 := by
  constructor
  · exact (c7_key_assignment.1 emptyCollection { id := 0, kind := "t", payload := 0 }
      rfl (Or.inl rfl)).2.1
  · exact (c7_key_assignment.2
      [{ id := 0, kind := "t", payload := 1 }, { id := 0, kind := "t", payload := 2 }]
      (by decide)).1
